import Mathlib

/-!
Verification of the crash-log forensics pipeline
(`stack_trace_read.py`, `map_debug.py`).

The Python sources are shallowly embedded below.  Log processing works on
`List String`, one element per line exactly as Python's `readlines()` yields
them.  Each regular expression of the source is translated into an executable
matcher that reproduces Python `re` semantics (leftmost match, greedy
quantifiers with backtracking) for the construct at hand; character classes
`\s`, `\d`, `\w` are modelled by their ASCII parts.  Filesystem existence and
the external demangler are modelled as function parameters, following the
spec's "external collaborators" boundary.
-/

/-! ### Character classes (ASCII parts of Python's `\s`, `\d`, `[0-9A-Fa-f]`, `\w`) -/

def isSpc (c : Char) : Bool :=
  c = ' ' || c = '\t' || c = '\n' || c = '\r' || c = '\x0b' || c = '\x0c'

def isHexDigit (c : Char) : Bool :=
  ('0' ≤ c && c ≤ '9') || ('a' ≤ c && c ≤ 'f') || ('A' ≤ c && c ≤ 'F')

def isDecDigit (c : Char) : Bool :=
  '0' ≤ c && c ≤ '9'

def isWordChar (c : Char) : Bool :=
  ('0' ≤ c && c ≤ '9') || ('a' ≤ c && c ≤ 'z') || ('A' ≤ c && c ≤ 'Z') || c = '_'

def hexDigitVal (c : Char) : Nat :=
  if '0' ≤ c && c ≤ '9' then c.toNat - 48
  else if 'a' ≤ c && c ≤ 'f' then c.toNat - 87
  else if 'A' ≤ c && c ≤ 'F' then c.toNat - 55
  else 0

/-- Value of `int(s, 16)` on a hex-digit string. -/
def hexVal (cs : List Char) : Nat :=
  cs.foldl (fun n c => 16 * n + hexDigitVal c) 0

/-- Value of `int(s)` on a decimal-digit string. -/
def decVal (cs : List Char) : Nat :=
  cs.foldl (fun n c => 10 * n + (c.toNat - 48)) 0

/-- `\s*`: drop the maximal leading whitespace run. -/
def dropWs (cs : List Char) : List Char := cs.dropWhile isSpc

/-- Python's `str.rstrip()`: drop trailing whitespace. -/
def rstripL (cs : List Char) : List Char := (cs.reverse.dropWhile isSpc).reverse

/-- Boolean infix test on lists (used for Python's substring test). -/
def isInfixB (needle : List Char) : List Char → Bool
  | [] => needle.isPrefixOf []
  | c :: rest => needle.isPrefixOf (c :: rest) || isInfixB needle rest

/-- Python's substring test `needle in hay`. -/
def strContains (hay needle : String) : Bool := isInfixB needle.data hay.data

/-- Python's `s.startswith(pre)`. -/
def strStartsWith (s pre : String) : Bool := pre.data.isPrefixOf s.data

/-- Python's `s.endswith(suf)` (used for path shapes). -/
def strEndsWith (s suf : String) : Bool := suf.data.isSuffixOf s.data

/-! ### Small deterministic matching steps shared by the embedded regexes -/

/-- `\d+` (deterministic: always followed by a non-digit requirement). -/
def reqDigits (cs : List Char) : Option (List Char) :=
  let r := cs.takeWhile isDecDigit
  if r.isEmpty then none else some (cs.drop r.length)

/-- a single literal character. -/
def reqChar (c : Char) (cs : List Char) : Option (List Char) :=
  match cs with
  | x :: rest => if x = c then some rest else none
  | [] => none

/-- a literal string. -/
def reqLit (lit : List Char) (cs : List Char) : Option (List Char) :=
  if lit.isPrefixOf cs then some (cs.drop lit.length) else none

/-- `[^:]+` followed by `:` in the source pattern: the run up to the first
colon, which must be nonempty (deterministic, the run cannot cross a colon). -/
def reqNonColon (cs : List Char) : Option (List Char) :=
  let r := cs.takeWhile (fun c => !(c = ':'))
  if r.isEmpty then none else some (cs.drop r.length)

/-- `\s+` (deterministic here: in every use the continuation starts with a
non-whitespace requirement, so the maximal run is the only candidate). -/
def reqWs1 (cs : List Char) : Option (List Char) :=
  match cs with
  | c :: _ => if isSpc c then some (cs.dropWhile isSpc) else none
  | [] => none

/-- `[0-9A-Fa-f]` exactly `n` times. -/
def reqHexN (n : Nat) (cs : List Char) : Option (List Char) :=
  if (cs.take n).length = n && (cs.take n).all isHexDigit then some (cs.drop n) else none

/-! ### `log_msg_pattern`: the `N[OSREPORT]` message-header regex

Source: `re.compile(r"\d+:\d+:\d+ [^:]+:\d+ N\[OSREPORT\]: (.*)")`, used with
`.match` (anchored at the start of the line); `message = match.group(1) if
match else line`.  Every quantifier in this pattern is deterministic (each run
is delimited by a character its class excludes), so the translation below is a
straight-line parser. -/

def parseHeader (cs : List Char) : Option (List Char) :=
  (reqDigits cs).bind fun c1 =>
  (reqChar ':' c1).bind fun c2 =>
  (reqDigits c2).bind fun c3 =>
  (reqChar ':' c3).bind fun c4 =>
  (reqDigits c4).bind fun c5 =>
  (reqChar ' ' c5).bind fun c6 =>
  (reqNonColon c6).bind fun c7 =>
  (reqChar ':' c7).bind fun c8 =>
  (reqDigits c8).bind fun c9 =>
  reqLit " N[OSREPORT]: ".data c9

/-- The message body the stack-trace reader works on: the header regex's
group 1 (`.*` stops at a newline) when the header matches, the whole raw line
otherwise. -/
def stripMsg (line : String) : String :=
  match parseHeader line.data with
  | some rest => String.mk (rest.takeWhile (fun c => !(c = '\n')))
  | none => line

/-! ### `log_addr_pattern`: old-style single-column addresses

Source: `re.compile(r"\s*([0-9A-Fa-f]+)")` with `.match`; the address is
`int(group(1), 16)`. -/

def logAddrMatch (msg : String) : Option Nat :=
  let r := (dropWs msg.data).takeWhile isHexDigit
  if r.isEmpty then none else some (hexVal r)

/-! ### `table_row_pattern`: table-style rows

Source: `re.compile(r"\s*(?:0x)?[0-9A-Fa-f]+:\s*(?:0x)?[0-9A-Fa-f]+\s*(?:0x)?([0-9A-Fa-f]+)")`
with `.match`; the address is `int(group(1), 16)`.  The `\s*` runs are
deterministic, but the middle `[0-9A-Fa-f]+` and the `(?:0x)?` groups need
genuine backtracking (greedy, longest-first), reproduced by the combinators
below. -/

/-- final `([0-9A-Fa-f]+)` capture: greedy maximal hex run, at least one. -/
def hexCapture (cs : List Char) : Option Nat :=
  let r := cs.takeWhile isHexDigit
  if r.isEmpty then none else some (hexVal r)

/-- `(?:0x)?` before the final capture: try consuming `0x` first, fall back. -/
def opt0xCapture (cs : List Char) : Option Nat :=
  match cs with
  | '0' :: 'x' :: rest =>
    (match hexCapture rest with
     | some v => some v
     | none => hexCapture cs)
  | _ => hexCapture cs

/-- `\s*(?:0x)?([0-9A-Fa-f]+)` — end of the row pattern. -/
def rowTail (cs : List Char) : Option Nat := opt0xCapture (dropWs cs)

/-- `[0-9A-Fa-f]+` with continuation `k`, after one hex digit was consumed:
greedy, trying the longest run first and handing shorter runs to `k` on
failure (Python backtracking order). -/
def hexPlusAux (k : List Char → Option Nat) : List Char → Option Nat
  | [] => k []
  | c :: rest =>
    if isHexDigit c then
      match hexPlusAux k rest with
      | some v => some v
      | none => k (c :: rest)
    else k (c :: rest)

/-- `[0-9A-Fa-f]+` with continuation `k` (at least one digit required). -/
def hexPlusThen (k : List Char → Option Nat) : List Char → Option Nat
  | [] => none
  | c :: rest => if isHexDigit c then hexPlusAux k rest else none

/-- `(?:0x)?` with continuation `k`: greedy, `0x`-consuming branch first. -/
def opt0xThen (k : List Char → Option Nat) (cs : List Char) : Option Nat :=
  match cs with
  | '0' :: 'x' :: rest =>
    (match k rest with
     | some v => some v
     | none => k cs)
  | _ => k cs

/-- `\s*(?:0x)?[0-9A-Fa-f]+\s*(?:0x)?([0-9A-Fa-f]+)` — after the colon. -/
def rowAfterColon (cs : List Char) : Option Nat :=
  opt0xThen (hexPlusThen rowTail) (dropWs cs)

/-- the literal `:` after the first token. -/
def rowColon (cs : List Char) : Option Nat :=
  match cs with
  | ':' :: rest => rowAfterColon rest
  | _ => none

def tableRowMatch (msg : String) : Option Nat :=
  opt0xThen (hexPlusThen rowColon) (dropWs msg.data)

/-! ### `map_symbol_pattern`: one linker-map line

Source: `re.compile(r"\s*[0-9A-Fa-f]{8}\s+[0-9A-Fa-f]{6}\s+([0-9A-Fa-f]{8})\s+[0-9A-Fa-f]{8}\s+[0-9]+\s+(\S*?)\s+.*")`
with `.match`; on a match the entry `(int(group(1), 16), group(2))` is
appended.  The lazy `(\S*?)\s+` tail captures up to the first whitespace
character; when the remainder holds no whitespace at all, backtracking into
the preceding `\s+` still succeeds with an empty group if that run has at
least two characters. -/

def parseMapLine (line : String) : Option (Nat × String) :=
  (reqHexN 8 (dropWs line.data)).bind fun c1 =>
  (reqWs1 c1).bind fun c2 =>
  (reqHexN 6 c2).bind fun c3 =>
  (reqWs1 c3).bind fun c4 =>
  if (c4.take 8).length = 8 && (c4.take 8).all isHexDigit then
    (reqWs1 (c4.drop 8)).bind fun c5 =>
    (reqHexN 8 c5).bind fun c6 =>
    (reqWs1 c6).bind fun c7 =>
    (reqDigits c7).bind fun c8 =>
    let m := c8.takeWhile isSpc
    if m.isEmpty then none
    else
      let rem := c8.drop m.length
      let sym := rem.takeWhile (fun c => !(isSpc c))
      match rem.drop sym.length with
      | _ :: _ => some (hexVal (c4.take 8), String.mk sym)
      | [] => if 2 ≤ m.length then some (hexVal (c4.take 8), "") else none
  else none

/-! ### the `.dta` reference pattern

Source: `re.compile(r"\(file\s+([^,]+\.dta),\s*line\s*(\d+)\)")` with
`.search` (first match anywhere in the line), collected as
`(group(1), int(group(2)))`.  `[^,]+` cannot cross a comma, so
`([^,]+\.dta),` matches exactly when the run up to the first comma is at
least five characters and ends in `.dta`; the remaining quantifiers are
deterministic. -/

def dtaRefAt (cs : List Char) : Option (String × Nat) :=
  (reqLit "(file".data cs).bind fun c1 =>
  (reqWs1 c1).bind fun c2 =>
  let seg := c2.takeWhile (fun c => !(c = ','))
  match c2.drop seg.length with
  | ',' :: c3 =>
    if 5 ≤ seg.length && ".dta".data.isSuffixOf seg then
      (reqLit "line".data (dropWs c3)).bind fun c4 =>
      let ds := (dropWs c4).takeWhile isDecDigit
      if ds.isEmpty then none
      else
        match (dropWs c4).drop ds.length with
        | ')' :: _ => some (String.mk seg, decVal ds)
        | _ => none
    else none
  | _ => none

/-- `.search`: leftmost match. -/
def searchDtaAux : List Char → Option (String × Nat)
  | [] => none
  | c :: rest =>
    match dtaRefAt (c :: rest) with
    | some r => some r
    | none => searchDtaAux rest

def extractRef (line : String) : Option (String × Nat) := searchDtaAux line.data

/-! ### `path_pattern`: `file.ext(##)` tokens in the data stack trace

Source: `re.compile(r"\b(\S+\.\w+)\((\d+)\)")` with `.search`, used only as a
found / not-found test.  `\w+\(` and `\d+\)` are deterministic; `\S+` before
the literal dot backtracks (greedy). -/

/-- `\w+\(\d+\)`. -/
def wordRunParen (cs : List Char) : Option Unit :=
  let w := cs.takeWhile isWordChar
  if w.isEmpty then none
  else
    match cs.drop w.length with
    | '(' :: c2 =>
      let d := c2.takeWhile isDecDigit
      if d.isEmpty then none
      else
        match c2.drop d.length with
        | ')' :: _ => some ()
        | [] => none
        | _ :: _ => none
    | _ => none

/-- `\.\w+\(\d+\)`. -/
def dotTail (cs : List Char) : Option Unit :=
  match cs with
  | '.' :: rest => wordRunParen rest
  | _ => none

/-- `\S+` continued by `dotTail`, after one non-space was consumed (greedy,
longest-first with backtracking). -/
def nonSpacePlusAux : List Char → Option Unit
  | [] => dotTail []
  | c :: rest =>
    if !(isSpc c) then
      match nonSpacePlusAux rest with
      | some v => some v
      | none => dotTail (c :: rest)
    else dotTail (c :: rest)

def matchPathAt : List Char → Option Unit
  | [] => none
  | c :: rest => if !(isSpc c) then nonSpacePlusAux rest else none

/-- `.search` over all start positions; `pw` is the word-character status of
the previous character, giving the `\b` test. -/
def pathSearchAux : Bool → List Char → Bool
  | _, [] => false
  | pw, c :: rest =>
    (decide (pw ≠ isWordChar c) && (matchPathAt (c :: rest)).isSome) ||
      pathSearchAux (isWordChar c) rest

def pathFound (s : String) : Bool := pathSearchAux false s.data

/-! ### line helpers of `show_data_stack_trace` -/

/-- Python's `line.split("N[OSREPORT]:", 1)`: the text after the first
occurrence of the tag, if any. -/
def afterTag : List Char → Option (List Char)
  | [] => none
  | c :: rest =>
    if "N[OSREPORT]:".data.isPrefixOf (c :: rest) then
      some ((c :: rest).drop "N[OSREPORT]:".data.length)
    else afterTag rest

/-- `parts[1].rstrip() if len(parts) == 2 else line.rstrip()`. -/
def contentOf (line : String) : String :=
  match afterTag line.data with
  | some rest => String.mk (rstripL rest)
  | none => String.mk (rstripL line.data)

/-- `not line.strip()`: the line is whitespace-only (or empty). -/
def isBlankLine (line : String) : Bool := line.data.all isSpc

/-! ### SymbolTable: construction and floor search (`stack_trace_read.py`) -/

/-- `bisect.bisect_right(a, x, lo, hi)` — the classic loop
`while lo < hi: mid = (lo+hi)//2; if x < a[mid]: hi = mid else: lo = mid+1`. -/
def bisectRightAux (l : List Nat) (x lo hi : Nat) : Nat :=
  if h : lo < hi then
    if x < l.getD ((lo + hi) / 2) 0 then bisectRightAux l x lo ((lo + hi) / 2)
    else bisectRightAux l x ((lo + hi) / 2 + 1) hi
  else lo
termination_by hi - lo
decreasing_by
  · omega
  · omega

def bisectRight (l : List Nat) (x : Nat) : Nat := bisectRightAux l x 0 l.length

/-- One resolution step of the reader's loop:
`symbol_index = bisect.bisect_right(map_addrs, address) - 1`; a negative
index yields the `(address, "<invalid>", None)` sentinel, otherwise the entry
`map_symbols[symbol_index]` with an attempted demangling (`dem` models the
external demangler wrapped in `try/except`, `none` on failure). -/
def resolveFrame (dem : String → Option String) (table : List (Nat × String))
    (a : Nat) : Nat × String × Option String :=
  let j := bisectRight (table.map Prod.fst) a
  if j = 0 then (a, "<invalid>", none)
  else
    let e := table.getD (j - 1) (0, "")
    (e.1, e.2, dem e.2)

/-- Stable insertion of a map entry, placing it before any entry of equal
address already present. -/
def insertByAddr (e : Nat × String) : List (Nat × String) → List (Nat × String)
  | [] => [e]
  | f :: rest => if f.1 < e.1 then f :: insertByAddr e rest else e :: f :: rest

/-- Stable sort by address.  Python's `sorted(map_symbols, key=lambda v: v[0])`
is a stable sort keyed on the address; any stable sort by a fixed key computes
the same list, so this insertion sort embeds it exactly. -/
def sortByAddr : List (Nat × String) → List (Nat × String)
  | [] => []
  | e :: rest => insertByAddr e (sortByAddr rest)

/-- Table construction: parse each map line, appending matches in file order,
then sort (stably) by address. -/
def mapSymbols (lines : List String) : List (Nat × String) :=
  sortByAddr (lines.filterMap parseMapLine)

def oldTriggerStr : String := "Stack Trace (map file unavailable)"

/-- The reader's log loop.  `stf`/`ttf` are `stack_trace_found` /
`table_trace_found`; before a trigger, lines only move the state; after one,
a matching line contributes one resolved frame and a non-matching line ends
the trace (`break`). -/
def parseLoop (dem : String → Option String) (table : List (Nat × String))
    (stf ttf : Bool) : List String → List (Nat × String × Option String)
  | [] => []
  | line :: rest =>
    let message := stripMsg line
    if !stf && !ttf then
      if message = oldTriggerStr then parseLoop dem table true false rest
      else if strStartsWith message "Address:" && strContains message "LR Save" then
        parseLoop dem table false true rest
      else parseLoop dem table false false rest
    else
      match (if ttf then tableRowMatch message else logAddrMatch message) with
      | none => []
      | some a => resolveFrame dem table a :: parseLoop dem table stf ttf rest

def parseLog (dem : String → Option String) (table : List (Nat × String))
    (lines : List String) : List (Nat × String × Option String) :=
  parseLoop dem table false false lines

/-! ### LogSectionExtractor (`map_debug.py`) -/

/-- `refs.add(r)` on the collecting set, modelled as append-if-absent. -/
def addSet (refs : List (String × Nat)) (r : String × Nat) : List (String × Nat) :=
  if r ∈ refs then refs else refs ++ [r]

/-- The two-marker gated scan of `find_dta_references`: nothing is examined
before a line containing `APP FAILED`, then nothing before a later line
containing `start stack trace`; afterwards the first `.dta` reference of each
line (if any) is added to the set. -/
def dtaScan (seenFailed seenStart : Bool) (refs : List (String × Nat)) :
    List String → List (String × Nat)
  | [] => refs
  | l :: rest =>
    if !seenFailed then
      if strContains l "APP FAILED" then dtaScan true false refs rest
      else dtaScan false false refs rest
    else if !seenStart then
      if strContains l "start stack trace" then dtaScan true true refs rest
      else dtaScan true false refs rest
    else
      match extractRef l with
      | some r => dtaScan true true (addSet refs r) rest
      | none => dtaScan true true refs rest

/-- Python string comparison: lexicographic on code points. -/
def strLtL : List Char → List Char → Bool
  | [], [] => false
  | [], _ :: _ => true
  | _ :: _, [] => false
  | a :: as, b :: bs => if a < b then true else if b < a then false else strLtL as bs

/-- Python tuple order on `(path, line)` references (`≤`). -/
def refLe (a b : String × Nat) : Bool :=
  strLtL a.1.data b.1.data || (a.1 == b.1 && decide (a.2 ≤ b.2))

def insertRef (r : String × Nat) : List (String × Nat) → List (String × Nat)
  | [] => [r]
  | s :: rest => if refLe s r then s :: insertRef r rest else r :: s :: rest

/-- `sorted(refs)`: the set's elements in ascending tuple order (the elements
are pairwise distinct, so the sorted arrangement is unique and any sort
computes it). -/
def sortRefs (l : List (String × Nat)) : List (String × Nat) :=
  l.foldr insertRef []

def findDtaReferences (lines : List String) : List (String × Nat) :=
  sortRefs (dtaScan false false [] lines)

/-- `show_data_stack_trace`: after a line containing `Data Stack Trace`,
collect the header-stripped content of each line until a blank line or the
first line without a `file.ext(##)` token. -/
def dataStackScan (seen : Bool) : List String → List String
  | [] => []
  | l :: rest =>
    if !seen then
      if strContains l "Data Stack Trace" then dataStackScan true rest
      else dataStackScan false rest
    else if isBlankLine l then []
    else
      let c := contentOf l
      if pathFound c then c :: dataStackScan true rest else []

def showDataStackTrace (lines : List String) : List String :=
  dataStackScan false lines

/-! ### `run_dta_debug` and step 5 of `main` (`map_debug.py`) -/

/-- Observable events of `run_dta_debug`.  `snippet p n` is the
`matchstack.py` invocation for an existing file; on the first missing file
the code attempts `print(..., file=sys.stderr)`, but `map_debug.py` never
imports `sys`, so a `NameError` escapes and aborts the loop —
`nameErrorAbort`. -/
inductive Event where
  | snippet (path : String) (line : Nat)
  | nameErrorAbort
deriving DecidableEq, Repr

def isAbsolutePath (p : String) : Bool := strStartsWith p "/"

/-- `Path(dta_root) / p` for the shapes arising here (pathlib drops a bare
`.` root and joins with a single slash). -/
def joinPath (root p : String) : String :=
  if root = "." then p
  else if strEndsWith root "/" then root ++ p
  else root ++ "/" ++ p

def resolveDtaPath (root p : String) : String :=
  if isAbsolutePath p then p else joinPath root p

/-- `run_dta_debug`: `ex` models the filesystem existence check. -/
def runDtaDebug (ex : String → Bool) (root : String) :
    List (String × Nat) → List Event
  | [] => []
  | (p, n) :: rest =>
    let q := resolveDtaPath root p
    if ex q then Event.snippet q n :: runDtaDebug ex root rest
    else [Event.nameErrorAbort]

/-- Step 5 of `main`: `refs = find_dta_references(log)`; if nonempty run the
snippets, otherwise print the `No post-trace .dta references found` message. -/
inductive MainRefsOutcome where
  | noRefsMessage
  | ranDebug (events : List Event)
deriving DecidableEq, Repr

def mainStep5 (ex : String → Bool) (root : String) (lines : List String) :
    MainRefsOutcome :=
  let refs := findDtaReferences lines
  if refs.isEmpty then MainRefsOutcome.noRefsMessage
  else MainRefsOutcome.ranDebug (runDtaDebug ex root refs)

/-- Modelled from the spec ("verify against a brute-force linear scan"): the
brute-force linear floor scan, keeping the greatest address `≤ x`. -/
def specLinearFloor : List Nat → Nat → Option Nat
  | [], _ => none
  | a :: as, x =>
    match specLinearFloor as x with
    | none => if a ≤ x then some a else none
    | some b => if a ≤ x then some (max a b) else some b

/-! ### Well-formed table rows (for stating the `TABLE_FORMAT` claim) -/

/-- the first character, if any, is not a hex digit. -/
def headNotHex (s : String) : Bool :=
  match s.data with
  | [] => true
  | c :: _ => !(isHexDigit c)

/-- excludes the one boundary case in which the trailing `(?:0x)?` of the row
pattern would consume `0` from the third token and `x` from the rest. -/
def noCapture0x (h3 rest : String) : Bool :=
  !(h3 == "0" &&
    (match rest.data with
     | 'x' :: c :: _ => isHexDigit c
     | _ => false))

/-- A table-style row decomposed as whitespace / first hex token / colon /
whitespace / second hex token / whitespace / third hex token / remainder. -/
structure RowShape where
  ws1 : String
  h1 : String
  ws2 : String
  h2 : String
  ws3 : String
  h3 : String
  rest : String

def RowShape.str (r : RowShape) : String :=
  r.ws1 ++ r.h1 ++ ":" ++ r.ws2 ++ r.h2 ++ r.ws3 ++ r.h3 ++ r.rest

/-- The side conditions making the decomposition match the row pattern:
tokens are nonempty hex-digit strings, the separator before the third token
is nonempty whitespace, and nothing after the third token extends the final
capture. -/
def RowShape.Ok (r : RowShape) : Prop :=
  r.ws1.data.all isSpc = true ∧
  r.h1.data.all isHexDigit = true ∧ r.h1 ≠ "" ∧
  r.ws2.data.all isSpc = true ∧
  r.h2.data.all isHexDigit = true ∧ r.h2 ≠ "" ∧
  r.ws3.data.all isSpc = true ∧ r.ws3 ≠ "" ∧
  r.h3.data.all isHexDigit = true ∧ r.h3 ≠ "" ∧
  headNotHex r.rest = true ∧ noCapture0x r.h3 r.rest = true

instance (r : RowShape) : Decidable r.Ok := by
  unfold RowShape.Ok
  infer_instance

/-! ### Helper lemmas: list indexing and sortedness -/

theorem getD_mem_of_lt {α : Type} (l : List α) (d : α) :
    ∀ i, i < l.length → l.getD i d ∈ l := by
  induction l with
  | nil => intro i h; simp at h
  | cons a t ih =>
    intro i h
    cases i with
    | zero => simp [List.getD]
    | succ j =>
      have := ih j (by simpa using Nat.lt_of_succ_lt_succ h)
      simp [List.getD] at this ⊢
      exact Or.inr this

theorem getD_map_fst (t : List (Nat × String)) :
    ∀ i, i < t.length → (t.map Prod.fst).getD i 0 = (t.getD i (0, "")).1 := by
  induction t with
  | nil => intro i h; simp at h
  | cons a s ih =>
    intro i h
    cases i with
    | zero => simp [List.getD]
    | succ j => simpa [List.getD] using ih j (by simpa using Nat.lt_of_succ_lt_succ h)

theorem sorted_getD_le (l : List Nat) (hs : List.Sorted (· ≤ ·) l) :
    ∀ i j, i ≤ j → j < l.length → l.getD i 0 ≤ l.getD j 0 := by
  induction l with
  | nil => intro i j _ h; simp at h
  | cons a t ih =>
    rw [List.sorted_cons] at hs
    intro i j hij hj
    cases i with
    | zero =>
      cases j with
      | zero => exact Nat.le_refl _
      | succ j2 =>
        have hmem : t.getD j2 0 ∈ t :=
          getD_mem_of_lt t 0 j2 (by simpa using Nat.lt_of_succ_lt_succ hj)
        simpa [List.getD] using hs.1 _ hmem
    | succ i2 =>
      cases j with
      | zero => exact absurd hij (by omega)
      | succ j2 =>
        simpa [List.getD] using
          ih hs.2 i2 j2 (by omega) (by simpa using Nat.lt_of_succ_lt_succ hj)

/-! ### Correctness of the embedded `bisect_right` -/

theorem bisectRightAux_spec (l : List Nat) (x : Nat) (hs : List.Sorted (· ≤ ·) l)
    (lo hi : Nat) (hlohi : lo ≤ hi) (hhil : hi ≤ l.length)
    (hlo : ∀ i, i < lo → l.getD i 0 ≤ x)
    (hhi : ∀ i, hi ≤ i → i < l.length → x < l.getD i 0) :
    (∀ i, i < bisectRightAux l x lo hi → l.getD i 0 ≤ x) ∧
    (∀ i, bisectRightAux l x lo hi ≤ i → i < l.length → x < l.getD i 0) ∧
    bisectRightAux l x lo hi ≤ hi ∧ lo ≤ bisectRightAux l x lo hi := by
  rw [bisectRightAux]
  split
  · next h =>
    split
    · next hxm =>
      have hrec := bisectRightAux_spec l x hs lo ((lo + hi) / 2)
        (by omega) (by omega) hlo
        (fun i hmi hil => by
          have h1 : l.getD ((lo + hi) / 2) 0 ≤ l.getD i 0 :=
            sorted_getD_le l hs _ i hmi hil
          omega)
      exact ⟨hrec.1, hrec.2.1, by omega, hrec.2.2.2⟩
    · next hxm =>
      have hmx : l.getD ((lo + hi) / 2) 0 ≤ x := by omega
      have hrec := bisectRightAux_spec l x hs ((lo + hi) / 2 + 1) hi
        (by omega) hhil
        (fun i hi2 => by
          have h1 : l.getD i 0 ≤ l.getD ((lo + hi) / 2) 0 :=
            sorted_getD_le l hs i _ (by omega) (by omega)
          omega)
        hhi
      exact ⟨hrec.1, hrec.2.1, hrec.2.2.1, by omega⟩
  · next h =>
    have hlo_eq : lo = hi := by omega
    exact ⟨hlo, fun i hi1 hi2 => hhi i (by omega) hi2, by omega, by omega⟩
termination_by hi - lo
decreasing_by
  · omega
  · omega

theorem bisectRight_spec (l : List Nat) (x : Nat) (hs : List.Sorted (· ≤ ·) l) :
    (∀ i, i < bisectRight l x → l.getD i 0 ≤ x) ∧
    (∀ i, bisectRight l x ≤ i → i < l.length → x < l.getD i 0) ∧
    bisectRight l x ≤ l.length := by
  have h := bisectRightAux_spec l x hs 0 l.length (by omega) (by omega)
    (fun i h => by omega) (fun i h1 h2 => by omega)
  exact ⟨h.1, h.2.1, h.2.2.1⟩

/-- Without any sortedness: if every element of the whole list is above `x`,
the search returns `lo`. -/
theorem bisectRightAux_all_gt (l : List Nat) (x : Nat)
    (hgt : ∀ i, i < l.length → x < l.getD i 0) :
    ∀ lo hi, hi ≤ l.length → bisectRightAux l x lo hi = lo := by
  have key : ∀ n lo hi, hi - lo = n → hi ≤ l.length → bisectRightAux l x lo hi = lo := by
    intro n
    induction n using Nat.strong_induction_on with
    | _ n ih =>
      intro lo hi hn hhl
      rw [bisectRightAux]
      split
      · next h =>
        have hmid : x < l.getD ((lo + hi) / 2) 0 := hgt _ (by omega)
        rw [if_pos hmid]
        exact ih ((lo + hi) / 2 - lo) (by omega) lo ((lo + hi) / 2) rfl (by omega)
      · rfl
  intro lo hi
  exact key (hi - lo) lo hi rfl

theorem getD_eq_get {α : Type} (l : List α) (d : α) :
    ∀ (i : Nat) (h : i < l.length), l.getD i d = l.get ⟨i, h⟩ := by
  induction l with
  | nil => intro i h; simp at h
  | cons a t ih =>
    intro i h
    cases i with
    | zero => simp [List.getD]
    | succ j => simpa [List.getD] using ih j (by simpa using Nat.lt_of_succ_lt_succ h)

/-! ### The spec-side linear floor scan -/

theorem specLinearFloor_sound : ∀ (l : List Nat) (x c : Nat),
    specLinearFloor l x = some c → c ∈ l ∧ c ≤ x := by
  intro l
  induction l with
  | nil => intro x c h; simp [specLinearFloor] at h
  | cons a as ih =>
    intro x c h
    cases hrec : specLinearFloor as x with
    | none =>
      simp only [specLinearFloor, hrec] at h
      by_cases hax : a ≤ x
      · rw [if_pos hax] at h
        cases h
        exact ⟨List.mem_cons_self _ _, hax⟩
      · rw [if_neg hax] at h; cases h
    | some b =>
      simp only [specLinearFloor, hrec] at h
      have hb := ih x b hrec
      by_cases hax : a ≤ x
      · rw [if_pos hax] at h
        cases h
        rcases Nat.le_total a b with hab | hba
        · rw [Nat.max_eq_right hab]
          exact ⟨List.mem_cons_of_mem _ hb.1, hb.2⟩
        · rw [Nat.max_eq_left hba]
          exact ⟨List.mem_cons_self _ _, hax⟩
      · rw [if_neg hax] at h
        cases h
        exact ⟨List.mem_cons_of_mem _ hb.1, hb.2⟩

theorem specLinearFloor_complete : ∀ (l : List Nat) (x b : Nat),
    b ∈ l → b ≤ x → (∀ a ∈ l, a ≤ x → a ≤ b) → specLinearFloor l x = some b := by
  intro l
  induction l with
  | nil => intro x b hb; simp at hb
  | cons a as ih =>
    intro x b hb hbx hmax
    simp only [specLinearFloor]
    rcases List.mem_cons.mp hb with rfl | hbas
    · cases hrec : specLinearFloor as x with
      | none => simp [hbx]
      | some c =>
        have hc := specLinearFloor_sound as x c hrec
        have hcb : c ≤ b := hmax c (List.mem_cons_of_mem _ hc.1) hc.2
        simp [hbx, Nat.max_eq_left hcb]
    · have hrec := ih x b hbas hbx (fun a ha hax => hmax a (List.mem_cons_of_mem _ ha) hax)
      rw [hrec]
      by_cases hax : a ≤ x
      · have hab : a ≤ b := hmax a (List.mem_cons_self _ _) hax
        simp [hax, Nat.max_eq_right hab]
      · simp [hax]

/-! ### Floor-search facts about `resolveFrame` -/

theorem bisectRight_pos (table : List (Nat × String)) (x : Nat)
    (hs : List.Sorted (· ≤ ·) (table.map Prod.fst))
    (h : ∃ e ∈ table, e.1 ≤ x) : 0 < bisectRight (table.map Prod.fst) x := by
  by_contra h0
  have hz : bisectRight (table.map Prod.fst) x = 0 := by omega
  obtain ⟨e, he, hex⟩ := h
  have hmem : e.1 ∈ table.map Prod.fst := List.mem_map_of_mem Prod.fst he
  obtain ⟨n, hn⟩ := List.mem_iff_get.mp hmem
  have hgt := (bisectRight_spec (table.map Prod.fst) x hs).2.1 n.1 (by omega) n.2
  rw [getD_eq_get _ 0 n.1 n.2, hn] at hgt
  omega

theorem resolveFrame_not_invalid (dem : String → Option String)
    (table : List (Nat × String)) (x : Nat)
    (hpos : 0 < bisectRight (table.map Prod.fst) x) :
    resolveFrame dem table x =
      ((table.getD (bisectRight (table.map Prod.fst) x - 1) (0, "")).1,
       (table.getD (bisectRight (table.map Prod.fst) x - 1) (0, "")).2,
       dem (table.getD (bisectRight (table.map Prod.fst) x - 1) (0, "")).2) := by
  simp only [resolveFrame]
  rw [if_neg (by omega)]

/-- C3: for every address `x` and every (address-sorted, as built) symbol
table with at least one entry of address `≤ x`, resolution returns an entry
of the table whose address is the greatest address `≤ x` — it agrees with the
brute-force linear floor scan; in particular an address equal to a symbol's
start address resolves to that start address. -/
theorem c3_resolve_floor (dem : String → Option String)
    (table : List (Nat × String)) (x : Nat)
    (hs : List.Sorted (· ≤ ·) (table.map Prod.fst))
    (h : ∃ e ∈ table, e.1 ≤ x) :
    specLinearFloor (table.map Prod.fst) x = some ((resolveFrame dem table x).1) ∧
    ((resolveFrame dem table x).1, (resolveFrame dem table x).2.1) ∈ table := by
  have hpos := bisectRight_pos table x hs h
  have hspec := bisectRight_spec (table.map Prod.fst) x hs
  have hLlen : (table.map Prod.fst).length = table.length := List.length_map _ _
  have hjlen : bisectRight (table.map Prod.fst) x ≤ (table.map Prod.fst).length :=
    hspec.2.2
  have hjt : bisectRight (table.map Prod.fst) x - 1 < table.length := by omega
  rw [resolveFrame_not_invalid dem table x hpos]
  have hb : (table.map Prod.fst).getD (bisectRight (table.map Prod.fst) x - 1) 0 =
      (table.getD (bisectRight (table.map Prod.fst) x - 1) (0, "")).1 :=
    getD_map_fst table _ hjt
  have hble : (table.getD (bisectRight (table.map Prod.fst) x - 1) (0, "")).1 ≤ x := by
    have := hspec.1 (bisectRight (table.map Prod.fst) x - 1) (by omega)
    rwa [hb] at this
  have hmem : table.getD (bisectRight (table.map Prod.fst) x - 1) (0, "") ∈ table :=
    getD_mem_of_lt table (0, "") _ hjt
  constructor
  · apply specLinearFloor_complete
    · rw [← hb]
      exact getD_mem_of_lt (table.map Prod.fst) 0 _ (by omega)
    · exact hble
    · intro a ha hax
      obtain ⟨n, hn⟩ := List.mem_iff_get.mp ha
      by_cases hnj : n.1 < bisectRight (table.map Prod.fst) x
      · have hle := sorted_getD_le (table.map Prod.fst) hs n.1
          (bisectRight (table.map Prod.fst) x - 1) (by omega) (by omega)
        rw [getD_eq_get _ 0 n.1 n.2, hn, hb] at hle
        exact hle
      · have hgt := hspec.2.1 n.1 (by omega) n.2
        rw [getD_eq_get _ 0 n.1 n.2, hn] at hgt
        omega
  · exact Prod.mk.eta ▸ hmem

/-- Witness for C3 at the table `[(2, "a"), (5, "b")]` and the query `5`
(an address equal to a symbol's start address). -/
theorem c3_resolve_floor_witness :
    specLinearFloor ([(2, "a"), (5, "b")].map Prod.fst) 5 =
      some ((resolveFrame (fun _ => none) [(2, "a"), (5, "b")] 5).1) ∧
    ((resolveFrame (fun _ => none) [(2, "a"), (5, "b")] 5).1,
     (resolveFrame (fun _ => none) [(2, "a"), (5, "b")] 5).2.1) ∈
      [(2, "a"), (5, "b")] :=
  c3_resolve_floor (fun _ => none) [(2, "a"), (5, "b")] 5 (by decide) (by decide)

/-- C4: an address strictly below every table entry (in particular, any
address queried against the empty table) resolves to the
`(address, "<invalid>", None)` sentinel — total, no exception — and the
parsing loop appends the sentinel and continues with the remaining lines
rather than aborting. -/
theorem c4_invalid_sentinel (dem : String → Option String)
    (table : List (Nat × String)) (x : Nat)
    (h : ∀ e ∈ table, x < e.1) :
    resolveFrame dem table x = (x, "<invalid>", none) ∧
    ∀ (l : String) (rest : List String), logAddrMatch (stripMsg l) = some x →
      parseLoop dem table true false (l :: rest) =
        (x, "<invalid>", none) :: parseLoop dem table true false rest := by
  have hz : bisectRight (table.map Prod.fst) x = 0 := by
    have hLlen : (table.map Prod.fst).length = table.length := List.length_map _ _
    apply bisectRightAux_all_gt
    · intro i hi
      rw [getD_map_fst table i (by omega)]
      exact h _ (getD_mem_of_lt table (0, "") i (by omega))
    · exact Nat.le_refl _
  have hres : resolveFrame dem table x = (x, "<invalid>", none) := by
    simp [resolveFrame, hz]
  refine ⟨hres, ?_⟩
  intro l rest hmatch
  simp [parseLoop, hmatch, hres]

/-- Witness for C4 at the empty table, the address `3` and the log line
`" 3"`. -/
theorem c4_invalid_sentinel_witness :
    resolveFrame (fun _ => none) [] 3 = (3, "<invalid>", none) ∧
    parseLoop (fun _ => none) [] true false [" 3"] = [(3, "<invalid>", none)] := by
  have h := c4_invalid_sentinel (fun _ => none) [] 3 (by simp)
  exact ⟨h.1, by rw [h.2 " 3" [] (by decide)]; rfl⟩

/-! ### Stable sort lemmas for the symbol table -/

theorem mem_insertByAddr (e f : Nat × String) (l : List (Nat × String)) :
    f ∈ insertByAddr e l ↔ f = e ∨ f ∈ l := by
  induction l with
  | nil => simp [insertByAddr]
  | cons g rest ih =>
    simp only [insertByAddr]
    by_cases hg : g.1 < e.1
    · rw [if_pos hg]
      simp [ih]
      tauto
    · rw [if_neg hg]
      simp

theorem mem_sortByAddr (e : Nat × String) (l : List (Nat × String)) :
    e ∈ sortByAddr l ↔ e ∈ l := by
  induction l with
  | nil => simp [sortByAddr]
  | cons f rest ih =>
    simp only [sortByAddr]
    rw [mem_insertByAddr]
    simp [ih]

theorem sorted_insertByAddr (e : Nat × String) (l : List (Nat × String))
    (hs : List.Sorted (· ≤ ·) (l.map Prod.fst)) :
    List.Sorted (· ≤ ·) ((insertByAddr e l).map Prod.fst) := by
  induction l with
  | nil => simp [insertByAddr]
  | cons g rest ih =>
    simp only [List.map_cons, List.sorted_cons] at hs
    simp only [insertByAddr]
    by_cases hg : g.1 < e.1
    · rw [if_pos hg]
      simp only [List.map_cons, List.sorted_cons]
      refine ⟨?_, ih hs.2⟩
      intro b hb
      rw [List.mem_map] at hb
      obtain ⟨f, hf, rfl⟩ := hb
      rcases (mem_insertByAddr e f rest).mp hf with rfl | hfr
      · omega
      · exact hs.1 f.1 (List.mem_map_of_mem Prod.fst hfr)
    · rw [if_neg hg]
      simp only [List.map_cons, List.sorted_cons]
      refine ⟨?_, hs.1, hs.2⟩
      intro b hb
      simp only [List.map_cons, List.mem_cons, List.mem_map] at hb
      rcases hb with rfl | ⟨f, hf, rfl⟩
      · omega
      · have := hs.1 f.1 (List.mem_map_of_mem Prod.fst hf)
        omega

theorem sorted_sortByAddr (l : List (Nat × String)) :
    List.Sorted (· ≤ ·) ((sortByAddr l).map Prod.fst) := by
  induction l with
  | nil => simp [sortByAddr]
  | cons e rest ih => exact sorted_insertByAddr e (sortByAddr rest) ih

theorem filter_insertByAddr (e : Nat × String) (l : List (Nat × String)) (a : Nat) :
    (insertByAddr e l).filter (fun f => f.1 = a) =
      if e.1 = a then e :: l.filter (fun f => f.1 = a)
      else l.filter (fun f => f.1 = a) := by
  induction l with
  | nil => by_cases h : e.1 = a <;> simp [insertByAddr, List.filter, h]
  | cons g rest ih =>
    simp only [insertByAddr]
    by_cases hg : g.1 < e.1
    · rw [if_pos hg]
      by_cases hga : g.1 = a
      · have hea : ¬ e.1 = a := by omega
        simp [List.filter_cons, hga, hea, ih]
      · simp [List.filter_cons, hga, ih]
    · rw [if_neg hg]
      by_cases hea : e.1 = a
      · simp [List.filter_cons, hea]
      · simp [List.filter_cons, hea]

theorem filter_sortByAddr (l : List (Nat × String)) (a : Nat) :
    (sortByAddr l).filter (fun f => f.1 = a) = l.filter (fun f => f.1 = a) := by
  induction l with
  | nil => simp [sortByAddr]
  | cons e rest ih =>
    simp only [sortByAddr]
    rw [filter_insertByAddr]
    by_cases hea : e.1 = a
    · simp [List.filter_cons, hea, ih]
    · simp [List.filter_cons, hea, ih]

theorem getLast_filter_of_last_sat {α : Type} (p : α → Bool) (d : α) :
    ∀ (l : List α) (k : Nat), k < l.length → p (l.getD k d) = true →
    (∀ i, i < l.length → k < i → p (l.getD i d) = false) →
    (l.filter p).getLast? = some (l.getD k d) := by
  intro l
  induction l with
  | nil => intro k hk; simp at hk
  | cons a t ih =>
    intro k hk hp hrest
    have hcons : ∀ (j : Nat), (a :: t).getD (j + 1) d = t.getD j d := by
      intro j; simp [List.getD]
    cases k with
    | zero =>
      have hfil : t.filter p = [] := by
        rw [List.filter_eq_nil_iff]
        intro x hx
        obtain ⟨⟨nv, hnv⟩, hn⟩ := List.mem_iff_get.mp hx
        have hgd : t.getD nv d = x := by rw [getD_eq_get t d nv hnv, hn]
        have hfalse := hrest (nv + 1) (by simp; omega) (by omega)
        rw [hcons nv, hgd] at hfalse
        simp [hfalse]
      have hpa : p a = true := by simpa [List.getD] using hp
      simp [List.filter_cons, hpa, hfil, List.getD]
    | succ j =>
      have hjt : j < t.length := by simpa using Nat.lt_of_succ_lt_succ hk
      have hih := ih j hjt (by rw [← hcons j]; exact hp)
        (fun i hi hji => by
          have := hrest (i + 1) (by simp; omega) (by omega)
          rwa [hcons i] at this)
      rw [hcons j, List.filter_cons]
      by_cases hpa : p a
      · rw [if_pos hpa]
        rw [show a :: t.filter p = [a] ++ t.filter p from rfl,
          List.getLast?_append, hih]
        rfl
      · rw [if_neg hpa]
        exact hih

/-- C10 (implicit): when several map lines define the same start address,
the resolved frame carries the name of the *last* such line in file order:
construction appends in file order, the sort is stable, and the floor search
takes the rightmost entry with address `≤` the query. -/
theorem c10_last_wins (dem : String → Option String) (lines : List String) (x : Nat)
    (h : ∃ e ∈ lines.filterMap parseMapLine, e.1 ≤ x) :
    ((lines.filterMap parseMapLine).filter
        (fun e => e.1 = (resolveFrame dem (mapSymbols lines) x).1)).getLast? =
      some ((resolveFrame dem (mapSymbols lines) x).1,
            (resolveFrame dem (mapSymbols lines) x).2.1) := by
  simp only [mapSymbols]
  have hs : List.Sorted (· ≤ ·)
      ((sortByAddr (lines.filterMap parseMapLine)).map Prod.fst) :=
    sorted_sortByAddr _
  have hmem : ∃ e ∈ sortByAddr (lines.filterMap parseMapLine), e.1 ≤ x := by
    obtain ⟨e, he, hex⟩ := h
    exact ⟨e, (mem_sortByAddr e _).mpr he, hex⟩
  have hpos := bisectRight_pos (sortByAddr (lines.filterMap parseMapLine)) x hs hmem
  have hspec := bisectRight_spec
    ((sortByAddr (lines.filterMap parseMapLine)).map Prod.fst) x hs
  have hLlen : ((sortByAddr (lines.filterMap parseMapLine)).map Prod.fst).length =
      (sortByAddr (lines.filterMap parseMapLine)).length := List.length_map _ _
  have hjle := hspec.2.2
  have hjt : bisectRight ((sortByAddr (lines.filterMap parseMapLine)).map Prod.fst) x - 1 <
      (sortByAddr (lines.filterMap parseMapLine)).length := by omega
  simp only [resolveFrame_not_invalid dem (sortByAddr (lines.filterMap parseMapLine)) x hpos]
  have hb := getD_map_fst (sortByAddr (lines.filterMap parseMapLine)) _ hjt
  have hlast := getLast_filter_of_last_sat
    (fun e => e.1 = ((sortByAddr (lines.filterMap parseMapLine)).getD
      (bisectRight ((sortByAddr (lines.filterMap parseMapLine)).map Prod.fst) x - 1)
      (0, "")).1)
    (0, "") (sortByAddr (lines.filterMap parseMapLine))
    (bisectRight ((sortByAddr (lines.filterMap parseMapLine)).map Prod.fst) x - 1) hjt
    (by simp)
    (by
      intro i hi hgt
      have hxlt := hspec.2.1 i (by omega) (by omega)
      rw [getD_map_fst _ i hi] at hxlt
      have hble := hspec.1
        (bisectRight ((sortByAddr (lines.filterMap parseMapLine)).map Prod.fst) x - 1)
        (by omega)
      rw [hb] at hble
      simp only [decide_eq_false_iff_not]
      omega)
  rw [filter_sortByAddr] at hlast
  rw [hlast]

/-- Witness for C10: two map lines defining address `0x10` with names
`alpha` and `beta`; resolving `20` returns `beta`, the later line. -/
theorem c10_last_wins_witness :
    ((["00000000 000000 00000010 00000000 4 alpha\n",
       "00000000 000000 00000010 00000000 4 beta\n"].filterMap parseMapLine).filter
        (fun e => e.1 = (resolveFrame (fun _ => none)
          (mapSymbols ["00000000 000000 00000010 00000000 4 alpha\n",
                       "00000000 000000 00000010 00000000 4 beta\n"]) 20).1)).getLast? =
      some ((resolveFrame (fun _ => none)
          (mapSymbols ["00000000 000000 00000010 00000000 4 alpha\n",
                       "00000000 000000 00000010 00000000 4 beta\n"]) 20).1,
        (resolveFrame (fun _ => none)
          (mapSymbols ["00000000 000000 00000010 00000000 4 alpha\n",
                       "00000000 000000 00000010 00000000 4 beta\n"]) 20).2.1) :=
  c10_last_wins (fun _ => none)
    ["00000000 000000 00000010 00000000 4 alpha\n",
     "00000000 000000 00000010 00000000 4 beta\n"] 20 (by decide)

/-! ### Character-class facts -/

theorem isHexDigit_ranges (c : Char) (h : isHexDigit c = true) :
    (48 ≤ c.toNat ∧ c.toNat ≤ 57) ∨ (97 ≤ c.toNat ∧ c.toNat ≤ 102) ∨
    (65 ≤ c.toNat ∧ c.toNat ≤ 70) := by
  simp only [isHexDigit, Bool.or_eq_true, Bool.and_eq_true, decide_eq_true_eq] at h
  rcases h with (⟨h1, h2⟩ | ⟨h1, h2⟩) | ⟨h1, h2⟩
  · exact Or.inl ⟨h1, h2⟩
  · exact Or.inr (Or.inl ⟨h1, h2⟩)
  · exact Or.inr (Or.inr ⟨h1, h2⟩)

theorem isSpc_cases (c : Char) (h : isSpc c = true) :
    c.toNat = 32 ∨ c.toNat = 9 ∨ c.toNat = 10 ∨ c.toNat = 13 ∨
    c.toNat = 11 ∨ c.toNat = 12 := by
  simp only [isSpc, Bool.or_eq_true, decide_eq_true_eq] at h
  rcases h with ((((rfl | rfl) | rfl) | rfl) | rfl) | rfl <;> decide

theorem hex_not_spc (c : Char) (h : isHexDigit c = true) : isSpc c = false := by
  by_contra hs
  have hs2 : isSpc c = true := by simpa using hs
  rcases isHexDigit_ranges c h with ⟨h1, h2⟩ | ⟨h1, h2⟩ | ⟨h1, h2⟩ <;>
    rcases isSpc_cases c hs2 with h3 | h3 | h3 | h3 | h3 | h3 <;> omega

theorem spc_not_hex (c : Char) (h : isSpc c = true) : isHexDigit c = false := by
  by_contra hh
  have hh2 : isHexDigit c = true := by simpa using hh
  rw [hex_not_spc c hh2] at h
  cases h

theorem hex_ne_colon (c : Char) (h : isHexDigit c = true) : c ≠ ':' := by
  intro heq
  have h58 : c.toNat = 58 := by rw [heq]; decide
  rcases isHexDigit_ranges c h with ⟨h1, h2⟩ | ⟨h1, h2⟩ | ⟨h1, h2⟩ <;> omega

theorem hex_ne_x (c : Char) (h : isHexDigit c = true) : c ≠ 'x' := by
  intro heq
  have h120 : c.toNat = 120 := by rw [heq]; decide
  rcases isHexDigit_ranges c h with ⟨h1, h2⟩ | ⟨h1, h2⟩ | ⟨h1, h2⟩ <;> omega

theorem spc_ne_x (c : Char) (h : isSpc c = true) : c ≠ 'x' := by
  intro heq
  have h120 : c.toNat = 120 := by rw [heq]; decide
  rcases isSpc_cases c h with h3 | h3 | h3 | h3 | h3 | h3 <;> omega

/-! ### Runs and the embedded quantifiers -/

theorem dropWs_ws_append (ws rest : List Char) (h : ∀ c ∈ ws, isSpc c = true) :
    dropWs (ws ++ rest) = dropWs rest := by
  induction ws with
  | nil => rfl
  | cons c t ih =>
    have hc := h c (List.mem_cons_self _ _)
    simp only [List.cons_append, dropWs, List.dropWhile_cons, hc, if_true]
    exact ih (fun d hd => h d (List.mem_cons_of_mem _ hd))

theorem dropWs_cons_not (c : Char) (cs : List Char) (h : isSpc c = false) :
    dropWs (c :: cs) = c :: cs := by
  simp [dropWs, List.dropWhile_cons, h]

theorem takeWhile_run (p : Char → Bool) (run rest : List Char)
    (hrun : ∀ c ∈ run, p c = true)
    (hrest : match rest with | [] => True | c :: _ => p c = false) :
    (run ++ rest).takeWhile p = run := by
  induction run with
  | nil =>
    cases rest with
    | nil => rfl
    | cons c t => simp [List.takeWhile_cons, hrest]
  | cons c t ih =>
    have hc := hrun c (List.mem_cons_self _ _)
    simp only [List.cons_append, List.takeWhile_cons, hc, if_true]
    rw [ih (fun d hd => hrun d (List.mem_cons_of_mem _ hd))]

theorem hexCapture_run (run rest : List Char)
    (hrun : ∀ c ∈ run, isHexDigit c = true) (hne : run ≠ [])
    (hrest : match rest with | [] => True | c :: _ => isHexDigit c = false) :
    hexCapture (run ++ rest) = some (hexVal run) := by
  unfold hexCapture
  rw [takeWhile_run isHexDigit run rest hrun hrest]
  rw [if_neg (by simpa [List.isEmpty_iff] using hne)]

theorem hexCapture_none (rest : List Char)
    (hrest : match rest with | [] => True | c :: _ => isHexDigit c = false) :
    hexCapture rest = none := by
  unfold hexCapture
  cases rest with
  | nil => rfl
  | cons c t => simp [List.takeWhile_cons, hrest]

theorem hexRun_ne_0x (run rest : List Char)
    (hrun : ∀ c ∈ run, isHexDigit c = true) (hne : run ≠ [])
    (hx : match rest with | c :: _ => c ≠ 'x' | [] => True) :
    ∀ rest2, run ++ rest ≠ '0' :: 'x' :: rest2 := by
  intro rest2 heq
  cases run with
  | nil => exact hne rfl
  | cons c run' =>
    cases run' with
    | nil =>
      simp only [List.cons_append, List.nil_append, List.cons.injEq] at heq
      obtain ⟨rfl, heq2⟩ := heq
      cases rest with
      | nil => cases heq2
      | cons d t =>
        simp only [List.cons.injEq] at heq2
        exact hx heq2.1
    | cons c' run'' =>
      simp only [List.cons_append, List.cons.injEq] at heq
      exact hex_ne_x c' (hrun c' (by simp)) heq.2.1

theorem opt0xThen_not0x (k : List Char → Option Nat) (cs : List Char)
    (h : ∀ rest2, cs ≠ '0' :: 'x' :: rest2) : opt0xThen k cs = k cs := by
  unfold opt0xThen
  split
  · rename_i rest
    exact absurd rfl (h rest)
  · rfl

theorem hexPlusAux_run (k : List Char → Option Nat) (v : Nat) :
    ∀ (hx rest : List Char), (∀ c ∈ hx, isHexDigit c = true) →
    (match rest with | [] => True | c :: _ => isHexDigit c = false) →
    k rest = some v → hexPlusAux k (hx ++ rest) = some v := by
  intro hx
  induction hx with
  | nil =>
    intro rest hhx hrest hk
    cases rest with
    | nil => simpa [hexPlusAux] using hk
    | cons c t => simpa [hexPlusAux, hrest] using hk
  | cons c hx' ih =>
    intro rest hhx hrest hk
    have hc := hhx c (List.mem_cons_self _ _)
    have hih := ih rest (fun d hd => hhx d (List.mem_cons_of_mem _ hd)) hrest hk
    simp only [List.cons_append, hexPlusAux, hc, if_true, List.append_eq, hih]

theorem hexPlusThen_run (k : List Char → Option Nat) (v : Nat)
    (run rest : List Char)
    (hrun : ∀ c ∈ run, isHexDigit c = true) (hne : run ≠ [])
    (hrest : match rest with | [] => True | c :: _ => isHexDigit c = false)
    (hk : k rest = some v) : hexPlusThen k (run ++ rest) = some v := by
  cases run with
  | nil => exact absurd rfl hne
  | cons c run' =>
    have hc := hrun c (List.mem_cons_self _ _)
    simp only [List.cons_append, hexPlusThen, hc, if_true]
    exact hexPlusAux_run k v run' rest
      (fun d hd => hrun d (List.mem_cons_of_mem _ hd)) hrest hk

theorem opt0xCapture_run (run rest : List Char)
    (hrun : ∀ c ∈ run, isHexDigit c = true) (hne : run ≠ [])
    (hrest : match rest with | [] => True | c :: _ => isHexDigit c = false)
    (hnx : ¬(run = ['0'] ∧ ∃ c rest2, rest = 'x' :: c :: rest2 ∧ isHexDigit c = true)) :
    opt0xCapture (run ++ rest) = some (hexVal run) := by
  by_cases h0x : ∃ rest2, run ++ rest = '0' :: 'x' :: rest2
  · obtain ⟨rest2, heq⟩ := h0x
    have hrun0 : run = ['0'] ∧ rest = 'x' :: rest2 := by
      cases run with
      | nil => exact absurd rfl hne
      | cons c run' =>
        cases run' with
        | nil =>
          simp only [List.cons_append, List.nil_append, List.cons.injEq] at heq
          exact ⟨by rw [heq.1], heq.2⟩
        | cons c' run'' =>
          simp only [List.cons_append, List.cons.injEq] at heq
          exact absurd heq.2.1 (hex_ne_x c' (hrun c' (by simp)))
    obtain ⟨hrun0, hrest0⟩ := hrun0
    have hr2 : hexCapture rest2 = none := by
      apply hexCapture_none
      cases rest2 with
      | nil => trivial
      | cons d t =>
        by_contra hd
        simp only at hd
        apply hnx
        refine ⟨hrun0, d, t, hrest0, ?_⟩
        cases hdv : isHexDigit d with
        | false => rw [hdv] at hd; exact absurd rfl hd
        | true => rfl
    rw [heq]
    show opt0xCapture ('0' :: 'x' :: rest2) = some (hexVal run)
    simp only [opt0xCapture, hr2]
    rw [← heq]
    exact hexCapture_run run rest hrun hne hrest
  · have hne0x : ∀ rest2, run ++ rest ≠ '0' :: 'x' :: rest2 := by
      intro rest2 heq
      exact h0x ⟨rest2, heq⟩
    have : opt0xCapture (run ++ rest) = hexCapture (run ++ rest) := by
      unfold opt0xCapture
      split
      · rename_i rest2 heq
        exact absurd heq (hne0x rest2)
      · rfl
    rw [this]
    exact hexCapture_run run rest hrun hne hrest

theorem str_eq_empty_of_data (s : String) (h : s.data = []) : s = "" := by
  cases s with
  | mk data => exact congrArg String.mk h

theorem rowTail_run (ws3 h3 rest : List Char)
    (hws : ∀ c ∈ ws3, isSpc c = true)
    (hh3 : ∀ c ∈ h3, isHexDigit c = true) (hne : h3 ≠ [])
    (hstop : match rest with | [] => True | c :: _ => isHexDigit c = false)
    (hnx : ¬(h3 = ['0'] ∧ ∃ c rest2, rest = 'x' :: c :: rest2 ∧ isHexDigit c = true)) :
    rowTail (ws3 ++ (h3 ++ rest)) = some (hexVal h3) := by
  unfold rowTail
  rw [dropWs_ws_append ws3 _ hws]
  have hdrop : dropWs (h3 ++ rest) = h3 ++ rest := by
    cases h3 with
    | nil => exact absurd rfl hne
    | cons c t =>
      rw [List.cons_append]
      exact dropWs_cons_not c (t ++ rest) (hex_not_spc c (hh3 c (List.mem_cons_self _ _)))
  rw [hdrop]
  exact opt0xCapture_run h3 rest hh3 hne hstop hnx

theorem rowAfterColon_run (ws2 h2 ws3 h3 rest : List Char)
    (hws2 : ∀ c ∈ ws2, isSpc c = true)
    (hh2 : ∀ c ∈ h2, isHexDigit c = true) (hne2 : h2 ≠ [])
    (hws3 : ∀ c ∈ ws3, isSpc c = true) (hne3 : ws3 ≠ [])
    (hh3 : ∀ c ∈ h3, isHexDigit c = true) (hneh3 : h3 ≠ [])
    (hstop : match rest with | [] => True | c :: _ => isHexDigit c = false)
    (hnx : ¬(h3 = ['0'] ∧ ∃ c rest2, rest = 'x' :: c :: rest2 ∧ isHexDigit c = true)) :
    rowAfterColon (ws2 ++ (h2 ++ (ws3 ++ (h3 ++ rest)))) = some (hexVal h3) := by
  unfold rowAfterColon
  rw [dropWs_ws_append ws2 _ hws2]
  have hdrop : dropWs (h2 ++ (ws3 ++ (h3 ++ rest))) = h2 ++ (ws3 ++ (h3 ++ rest)) := by
    cases h2 with
    | nil => exact absurd rfl hne2
    | cons c t =>
      rw [List.cons_append]
      exact dropWs_cons_not c _ (hex_not_spc c (hh2 c (List.mem_cons_self _ _)))
  rw [hdrop]
  have hx3 : match ws3 ++ (h3 ++ rest) with | c :: _ => c ≠ 'x' | [] => True := by
    cases ws3 with
    | nil => exact absurd rfl hne3
    | cons c t =>
      rw [List.cons_append]
      exact spc_ne_x c (hws3 c (List.mem_cons_self _ _))
  rw [opt0xThen_not0x _ _ (hexRun_ne_0x h2 _ hh2 hne2 hx3)]
  apply hexPlusThen_run _ _ h2 _ hh2 hne2
  · cases ws3 with
    | nil => exact absurd rfl hne3
    | cons c t =>
      rw [List.cons_append]
      exact spc_not_hex c (hws3 c (List.mem_cons_self _ _))
  · exact rowTail_run ws3 h3 rest hws3 hh3 hneh3 hstop hnx

/-- A well-formed three-token row matches the row pattern with the **third**
token as the captured link-register-save value. -/
theorem tableRowMatch_row (r : RowShape) (hok : r.Ok) :
    tableRowMatch r.str = some (hexVal r.h3.data) := by
  obtain ⟨hws1, hh1, hne1, hws2, hh2, hne2, hws3, hne3, hh3, hneh3, hrst, hnc⟩ := hok
  rw [List.all_eq_true] at hws1 hh1 hws2 hh2 hws3 hh3
  have hd1 : r.h1.data ≠ [] := fun hd => hne1 (str_eq_empty_of_data _ hd)
  have hd2 : r.h2.data ≠ [] := fun hd => hne2 (str_eq_empty_of_data _ hd)
  have hd3 : r.ws3.data ≠ [] := fun hd => hne3 (str_eq_empty_of_data _ hd)
  have hdh3 : r.h3.data ≠ [] := fun hd => hneh3 (str_eq_empty_of_data _ hd)
  have hstop : match r.rest.data with | [] => True | c :: _ => isHexDigit c = false := by
    unfold headNotHex at hrst
    cases hd : r.rest.data with
    | nil => trivial
    | cons c t => rw [hd] at hrst; simpa using hrst
  have hnx : ¬(r.h3.data = ['0'] ∧
      ∃ c rest2, r.rest.data = 'x' :: c :: rest2 ∧ isHexDigit c = true) := by
    rintro ⟨hd30, c, rest2, hdr, hhc⟩
    have h30 : r.h3 = "0" := by
      have : r.h3 = String.mk r.h3.data := rfl
      rw [this, hd30]
    unfold noCapture0x at hnc
    rw [h30, hdr] at hnc
    simp [hhc] at hnc
  have hdata : r.str.data = r.ws1.data ++ (r.h1.data ++ (':' ::
      (r.ws2.data ++ (r.h2.data ++ (r.ws3.data ++ (r.h3.data ++ r.rest.data)))))) := by
    simp only [RowShape.str, String.data_append, List.append_assoc]
    rfl
  unfold tableRowMatch
  rw [hdata]
  rw [dropWs_ws_append _ _ hws1]
  have hdrop : dropWs (r.h1.data ++ (':' ::
      (r.ws2.data ++ (r.h2.data ++ (r.ws3.data ++ (r.h3.data ++ r.rest.data)))))) =
      r.h1.data ++ (':' ::
      (r.ws2.data ++ (r.h2.data ++ (r.ws3.data ++ (r.h3.data ++ r.rest.data))))) := by
    cases hc1 : r.h1.data with
    | nil => exact absurd hc1 hd1
    | cons c t =>
      rw [List.cons_append]
      apply dropWs_cons_not
      apply hex_not_spc
      apply hh1
      rw [hc1]
      exact List.mem_cons_self _ _
  rw [hdrop]
  have hxc : match ':' :: (r.ws2.data ++ (r.h2.data ++
      (r.ws3.data ++ (r.h3.data ++ r.rest.data)))) with
      | c :: _ => c ≠ 'x' | [] => True := by
    show (':' : Char) ≠ 'x'
    decide
  rw [opt0xThen_not0x _ _ (hexRun_ne_0x r.h1.data _ hh1 hd1 hxc)]
  apply hexPlusThen_run _ _ r.h1.data _ hh1 hd1
  · show isHexDigit ':' = false
    decide
  · show rowColon _ = _
    unfold rowColon
    exact rowAfterColon_run r.ws2.data r.h2.data r.ws3.data r.h3.data r.rest.data
      hws2 hh2 hd2 hws3 hd3 hh3 hdh3 hstop hnx

/-! ### The stack-trace state machine -/

theorem parseLoop_skip_pre (dem : String → Option String) (table : List (Nat × String))
    (pre ls : List String)
    (hpre : ∀ l ∈ pre, stripMsg l ≠ oldTriggerStr ∧
      ¬(strStartsWith (stripMsg l) "Address:" = true ∧
        strContains (stripMsg l) "LR Save" = true)) :
    parseLoop dem table false false (pre ++ ls) = parseLoop dem table false false ls := by
  induction pre with
  | nil => rfl
  | cons l pre' ih =>
    obtain ⟨h1, h2⟩ := hpre l (List.mem_cons_self _ _)
    have h2b : (strStartsWith (stripMsg l) "Address:" &&
        strContains (stripMsg l) "LR Save") = false := by
      rcases hA : strStartsWith (stripMsg l) "Address:" <;>
        rcases hB : strContains (stripMsg l) "LR Save" <;> simp_all
    rw [List.cons_append]
    simp only [parseLoop, h2b, Bool.not_false, Bool.and_self, if_true, if_neg h1,
      Bool.false_eq_true, if_false]
    exact ih (fun d hd => hpre d (List.mem_cons_of_mem _ hd))

theorem parseLoop_old_run (dem : String → Option String) (table : List (Nat × String))
    (hexls : List String) (bad : String) (rest : List String)
    (hhex : ∀ l ∈ hexls, (logAddrMatch (stripMsg l)).isSome = true)
    (hbad : logAddrMatch (stripMsg bad) = none) :
    parseLoop dem table true false (hexls ++ bad :: rest) =
      hexls.map (fun l => resolveFrame dem table ((logAddrMatch (stripMsg l)).getD 0)) := by
  induction hexls with
  | nil => simp [parseLoop, hbad]
  | cons l ls ih =>
    have hl := hhex l (List.mem_cons_self _ _)
    obtain ⟨a, ha⟩ := Option.isSome_iff_exists.mp hl
    rw [List.cons_append]
    simp only [parseLoop, Bool.not_true, Bool.false_and, Bool.false_eq_true, if_false,
      Bool.not_false, ha, List.map_cons, Option.getD_some]
    rw [ih (fun d hd => hhex d (List.mem_cons_of_mem _ hd))]

/-- C5: a log whose old-format trigger line is followed by `N` lines each
starting (after optional whitespace) with a hexadecimal token, and then a
line that does not, yields exactly `N` resolved frames, one per matching
line, in log order; the non-matching line ends the trace without failing. -/
theorem c5_old_format (dem : String → Option String) (table : List (Nat × String))
    (pre : List String) (t : String) (hexls : List String) (bad : String)
    (rest : List String)
    (hpre : ∀ l ∈ pre, stripMsg l ≠ oldTriggerStr ∧
      ¬(strStartsWith (stripMsg l) "Address:" = true ∧
        strContains (stripMsg l) "LR Save" = true))
    (ht : stripMsg t = oldTriggerStr)
    (hhex : ∀ l ∈ hexls, (logAddrMatch (stripMsg l)).isSome = true)
    (hbad : logAddrMatch (stripMsg bad) = none) :
    parseLog dem table (pre ++ t :: (hexls ++ bad :: rest)) =
      hexls.map (fun l => resolveFrame dem table ((logAddrMatch (stripMsg l)).getD 0)) := by
  unfold parseLog
  rw [parseLoop_skip_pre dem table pre _ hpre]
  have hstep : parseLoop dem table false false (t :: (hexls ++ bad :: rest)) =
      parseLoop dem table true false (hexls ++ bad :: rest) := by
    simp [parseLoop, ht]
  rw [hstep]
  exact parseLoop_old_run dem table hexls bad rest hhex hbad

/-- Witness for C5: trigger, two hex lines, then `"go"` (no leading hex);
exactly two frames result. -/
theorem c5_old_format_witness :
    parseLog (fun _ => none) [(16, "sym")]
      (["hello"] ++ "Stack Trace (map file unavailable)" :: ([" 20", "10"] ++ "go" :: ["ignored"])) =
      [" 20", "10"].map (fun l => resolveFrame (fun _ => none) [(16, "sym")]
        ((logAddrMatch (stripMsg l)).getD 0)) :=
  c5_old_format (fun _ => none) [(16, "sym")] ["hello"]
    "Stack Trace (map file unavailable)" [" 20", "10"] "go" ["ignored"]
    (by decide) (by decide) (by decide) (by decide)

theorem parseLoop_table_run (dem : String → Option String) (table : List (Nat × String))
    (rls : List String) (rows : List RowShape) (bad : String) (rest : List String)
    (hcorr : List.Forall₂ (fun rl r => stripMsg rl = RowShape.str r ∧ r.Ok) rls rows)
    (hbad : tableRowMatch (stripMsg bad) = none) :
    parseLoop dem table false true (rls ++ bad :: rest) =
      rows.map (fun r => resolveFrame dem table (hexVal r.h3.data)) := by
  induction hcorr with
  | nil => simp [parseLoop, hbad]
  | cons hpair htail ih =>
    obtain ⟨hstr, hok⟩ := hpair
    have hm := tableRowMatch_row _ hok
    rw [← hstr] at hm
    rw [List.cons_append]
    simp only [parseLoop, Bool.not_false, Bool.not_true, Bool.and_false, Bool.false_eq_true,
      if_false, if_true, hm, List.map_cons]
    rw [ih]

/-- C6: after the table-format trigger (a message starting with `Address:`
and containing `LR Save`), each well-formed three-hex-token row contributes
the **third** token — the link-register-save value, not the frame pointer or
the back-chain pointer — as the address to resolve. -/
theorem c6_table_format_third_token (dem : String → Option String)
    (table : List (Nat × String)) (pre : List String) (tl : String)
    (rls : List String) (rows : List RowShape) (bad : String) (rest : List String)
    (hpre : ∀ l ∈ pre, stripMsg l ≠ oldTriggerStr ∧
      ¬(strStartsWith (stripMsg l) "Address:" = true ∧
        strContains (stripMsg l) "LR Save" = true))
    (htrig : strStartsWith (stripMsg tl) "Address:" = true ∧
      strContains (stripMsg tl) "LR Save" = true)
    (hcorr : List.Forall₂ (fun rl r => stripMsg rl = RowShape.str r ∧ r.Ok) rls rows)
    (hbad : tableRowMatch (stripMsg bad) = none) :
    parseLog dem table (pre ++ tl :: (rls ++ bad :: rest)) =
      rows.map (fun r => resolveFrame dem table (hexVal r.h3.data)) := by
  unfold parseLog
  rw [parseLoop_skip_pre dem table pre _ hpre]
  have hne : stripMsg tl ≠ oldTriggerStr := by
    intro heq
    rw [heq] at htrig
    exact absurd htrig.1 (by decide)
  have hstep : parseLoop dem table false false (tl :: (rls ++ bad :: rest)) =
      parseLoop dem table false true (rls ++ bad :: rest) := by
    simp [parseLoop, hne, htrig.1, htrig.2]
  rw [hstep]
  exact parseLoop_table_run dem table rls rows bad rest hcorr hbad

/-- Witness for C6: one row ` 11: 22 33`; the resolved address is `0x33`,
the third token. -/
theorem c6_table_format_third_token_witness :
    parseLog (fun _ => none) [(16, "sym")]
      ([] ++ "Address:   Back Chain   LR Save" :: ([" 11: 22 33"] ++ "done" :: [])) =
      [RowShape.mk " " "11" " " "22" " " "33" ""].map
        (fun r => resolveFrame (fun _ => none) [(16, "sym")] (hexVal r.h3.data)) :=
  c6_table_format_third_token (fun _ => none) [(16, "sym")] []
    "Address:   Back Chain   LR Save" [" 11: 22 33"]
    [RowShape.mk " " "11" " " "22" " " "33" ""] "done" []
    (by simp) (by decide)
    (List.Forall₂.cons (by exact ⟨by decide, by decide⟩) List.Forall₂.nil)
    (by decide)

/-! ### The data-stack-trace block scan -/

theorem dataStackScan_skip (pre ls : List String)
    (hpre : ∀ l ∈ pre, strContains l "Data Stack Trace" = false) :
    dataStackScan false (pre ++ ls) = dataStackScan false ls := by
  induction pre with
  | nil => rfl
  | cons l pre' ih =>
    have hl := hpre l (List.mem_cons_self _ _)
    rw [List.cons_append]
    simp only [dataStackScan, hl, Bool.not_false, if_true, Bool.false_eq_true, if_false]
    exact ih (fun d hd => hpre d (List.mem_cons_of_mem _ hd))

theorem dataStackScan_body (body : List String) :
    dataStackScan true body =
      (body.takeWhile (fun l => !(isBlankLine l) && pathFound (contentOf l))).map contentOf := by
  induction body with
  | nil => rfl
  | cons l rest ih =>
    by_cases hb : isBlankLine l
    · simp [dataStackScan, List.takeWhile_cons, hb]
    · by_cases hp : pathFound (contentOf l)
      · simp [dataStackScan, List.takeWhile_cons, hb, hp, ih]
      · simp [dataStackScan, List.takeWhile_cons, hb, hp]

/-- C9: once a line containing the marker has been seen, the block consists
of exactly the maximal prefix of following lines that are non-blank and whose
header-stripped content carries a `file.ext(NN)` token; the first blank or
non-matching line terminates it, and matching lines are kept in file order
(as their stripped content). -/
theorem c9_data_stack_block (pre : List String) (ml : String) (body : List String)
    (hpre : ∀ l ∈ pre, strContains l "Data Stack Trace" = false)
    (hml : strContains ml "Data Stack Trace" = true) :
    showDataStackTrace (pre ++ ml :: body) =
      (body.takeWhile (fun l => !(isBlankLine l) && pathFound (contentOf l))).map contentOf := by
  unfold showDataStackTrace
  rw [dataStackScan_skip pre _ hpre]
  rw [show dataStackScan false (ml :: body) = dataStackScan true body from by
    simp [dataStackScan, hml]]
  exact dataStackScan_body body

/-- Witness for C9: marker, one matching line, a blank line, then another
matching line; only the first line is kept. -/
theorem c9_data_stack_block_witness :
    showDataStackTrace (["x"] ++ "== Data Stack Trace ==" :: ["a.dta(3)", "", "b.dta(4)"]) =
      (["a.dta(3)", "", "b.dta(4)"].takeWhile
        (fun l => !(isBlankLine l) && pathFound (contentOf l))).map contentOf :=
  c9_data_stack_block ["x"] "== Data Stack Trace ==" ["a.dta(3)", "", "b.dta(4)"]
    (by decide) (by decide)

/-! ### The gated `.dta` reference scan -/

theorem dtaScan_skip_failed (refs : List (String × Nat)) (pre ls : List String)
    (hpre : ∀ l ∈ pre, strContains l "APP FAILED" = false) :
    dtaScan false false refs (pre ++ ls) = dtaScan false false refs ls := by
  induction pre with
  | nil => rfl
  | cons l pre' ih =>
    have hl := hpre l (List.mem_cons_self _ _)
    rw [List.cons_append]
    simp only [dtaScan, hl, Bool.not_false, if_true, Bool.false_eq_true, if_false]
    exact ih (fun d hd => hpre d (List.mem_cons_of_mem _ hd))

theorem dtaScan_skip_start (refs : List (String × Nat)) (mid ls : List String)
    (hmid : ∀ l ∈ mid, strContains l "start stack trace" = false) :
    dtaScan true false refs (mid ++ ls) = dtaScan true false refs ls := by
  induction mid with
  | nil => rfl
  | cons l mid' ih =>
    have hl := hmid l (List.mem_cons_self _ _)
    rw [List.cons_append]
    simp only [dtaScan, hl, Bool.not_true, Bool.not_false, if_true, Bool.false_eq_true, if_false]
    exact ih (fun d hd => hmid d (List.mem_cons_of_mem _ hd))

theorem dtaScan_collect (post : List String) : ∀ refs,
    dtaScan true true refs post = List.foldl addSet refs (post.filterMap extractRef) := by
  induction post with
  | nil => intro refs; rfl
  | cons l post' ih =>
    intro refs
    cases hx : extractRef l with
    | none =>
      simp only [dtaScan, hx, List.filterMap_cons, Bool.not_true, Bool.false_eq_true,
        if_false, ih]
    | some r =>
      simp only [dtaScan, hx, List.filterMap_cons, List.foldl_cons, Bool.not_true,
        Bool.false_eq_true, if_false, ih]

theorem mem_addSet (refs : List (String × Nat)) (r s : String × Nat) :
    s ∈ addSet refs r ↔ s ∈ refs ∨ s = r := by
  unfold addSet
  by_cases h : r ∈ refs
  · rw [if_pos h]
    constructor
    · exact Or.inl
    · rintro (hs | rfl)
      · exact hs
      · exact h
  · rw [if_neg h]
    simp

theorem mem_foldl_addSet (l : List (String × Nat)) : ∀ (refs : List (String × Nat)) (s),
    s ∈ List.foldl addSet refs l ↔ s ∈ refs ∨ s ∈ l := by
  induction l with
  | nil => intro refs s; simp
  | cons r l' ih =>
    intro refs s
    rw [List.foldl_cons, ih, mem_addSet]
    simp
    tauto

theorem nodup_addSet (refs : List (String × Nat)) (r : String × Nat)
    (h : refs.Nodup) : (addSet refs r).Nodup := by
  unfold addSet
  by_cases hm : r ∈ refs
  · rwa [if_pos hm]
  · rw [if_neg hm]
    simp [List.nodup_append, h, hm]

theorem nodup_foldl_addSet (l : List (String × Nat)) : ∀ refs, refs.Nodup →
    (List.foldl addSet refs l).Nodup := by
  induction l with
  | nil => intro refs h; exact h
  | cons r l' ih =>
    intro refs h
    rw [List.foldl_cons]
    exact ih _ (nodup_addSet refs r h)

theorem strLtL_conn : ∀ (as bs : List Char),
    strLtL as bs = false → strLtL bs as = false → as = bs := by
  intro as
  induction as with
  | nil =>
    intro bs h1 _
    cases bs with
    | nil => rfl
    | cons b bs' => cases h1
  | cons a as' ih =>
    intro bs h1 h2
    cases bs with
    | nil => cases h2
    | cons b bs' =>
      simp only [strLtL] at h1 h2
      by_cases hab : a < b
      · rw [if_pos hab] at h1; cases h1
      · by_cases hba : b < a
        · rw [if_pos hba] at h2; cases h2
        · rw [if_neg hab, if_neg hba] at h1
          rw [if_neg hba, if_neg hab] at h2
          have hx : a = b := le_antisymm (not_lt.mp hba) (not_lt.mp hab)
          rw [hx, ih bs' h1 h2]

theorem refLe_total (a b : String × Nat) : refLe a b = true ∨ refLe b a = true := by
  unfold refLe
  by_cases hab : strLtL a.1.data b.1.data = true
  · exact Or.inl (by simp [hab])
  · by_cases hba : strLtL b.1.data a.1.data = true
    · exact Or.inr (by simp [hba])
    · have heq : a.1 = b.1 := by
        have hd := strLtL_conn a.1.data b.1.data
          (by simpa using hab) (by simpa using hba)
        have h1 : a.1 = String.mk a.1.data := rfl
        have h2 : b.1 = String.mk b.1.data := rfl
        rw [h1, h2, hd]
      rcases Nat.le_total a.2 b.2 with h | h
      · exact Or.inl (by simp [heq, h])
      · exact Or.inr (by simp [heq.symm, h])

theorem insertRef_cases (r : String × Nat) (l : List (String × Nat)) :
    insertRef r l = r :: l ∨
    ∃ s l', l = s :: l' ∧ refLe s r = true ∧ insertRef r l = s :: insertRef r l' := by
  cases l with
  | nil => exact Or.inl rfl
  | cons s l' =>
    by_cases h : refLe s r = true
    · exact Or.inr ⟨s, l', rfl, h, by rw [insertRef, if_pos h]⟩
    · refine Or.inl ?_
      rw [insertRef, if_neg h]

theorem chain'_insertRef (r : String × Nat) :
    ∀ l, List.Chain' (fun a b => refLe a b = true) l →
    List.Chain' (fun a b => refLe a b = true) (insertRef r l) := by
  intro l
  induction l with
  | nil => intro _; simp [insertRef]
  | cons s l' ih =>
    intro hl
    rw [insertRef]
    by_cases h : refLe s r = true
    · rw [if_pos h]
      have hrec := ih hl.tail
      rcases insertRef_cases r l' with heq | ⟨u, l'', heq, _, heq2⟩
      · rw [heq] at hrec ⊢
        exact List.Chain'.cons h hrec
      · rw [heq2] at hrec ⊢
        have hsu : refLe s u = true := by
          rw [heq] at hl
          exact (List.chain'_cons.mp hl).1
        exact List.Chain'.cons hsu hrec
    · rw [if_neg h]
      have hrs : refLe r s = true := by
        rcases refLe_total r s with h1 | h1
        · exact h1
        · exact absurd h1 h
      exact List.Chain'.cons hrs hl

theorem chain'_sortRefs (l : List (String × Nat)) :
    List.Chain' (fun a b => refLe a b = true) (sortRefs l) := by
  induction l with
  | nil => simp [sortRefs]
  | cons r l' ih => exact chain'_insertRef r _ ih

theorem insertRef_perm (r : String × Nat) :
    ∀ l, List.Perm (insertRef r l) (r :: l) := by
  intro l
  induction l with
  | nil => simp [insertRef]
  | cons s l' ih =>
    rw [insertRef]
    by_cases h : refLe s r = true
    · rw [if_pos h]
      exact (List.Perm.cons s ih).trans (List.Perm.swap r s l')
    · rw [if_neg h]

theorem sortRefs_perm (l : List (String × Nat)) : List.Perm (sortRefs l) l := by
  induction l with
  | nil => simp [sortRefs]
  | cons r l' ih =>
    exact (insertRef_perm r (sortRefs l')).trans (List.Perm.cons r ih)

theorem countP_eq_one_of_nodup_mem (l : List (String × Nat)) (r : String × Nat)
    (hn : l.Nodup) (hm : r ∈ l) : l.countP (fun s => s = r) = 1 := by
  induction l with
  | nil => simp at hm
  | cons a t ih =>
    rw [List.nodup_cons] at hn
    rw [List.countP_cons]
    rcases List.mem_cons.mp hm with rfl | hrt
    · have hz : t.countP (fun s => s = r) = 0 := by
        rw [List.countP_eq_zero]
        intro s hs
        simp only [decide_eq_true_eq]
        intro rfl2
        exact hn.1 (rfl2 ▸ hs)
      simp [hz]
    · have hne : ¬(a = r) := fun heq => hn.1 (heq ▸ hrt)
      rw [ih hn.2 hrt]
      simp [hne]

/-- C7: with the two gate markers present in order, the gated scan's result
(1) contains exactly the references extracted from the lines after the
second marker — nothing occurring before the `APP FAILED` line or between
the two markers contributes; (2) holds each reference exactly once (set
semantics), even when it occurs on several post-marker lines; and (3) is
sorted in ascending `(path, line)` order for determinism. -/
theorem c7_gated_refs (pre : List String) (fl : String) (mid : List String)
    (st : String) (post : List String)
    (hpre : ∀ l ∈ pre, strContains l "APP FAILED" = false)
    (hfl : strContains fl "APP FAILED" = true)
    (hmid : ∀ l ∈ mid, strContains l "start stack trace" = false)
    (hst : strContains st "start stack trace" = true) :
    (∀ r, r ∈ findDtaReferences (pre ++ fl :: (mid ++ st :: post)) ↔
      r ∈ post.filterMap extractRef) ∧
    (∀ r ∈ findDtaReferences (pre ++ fl :: (mid ++ st :: post)),
      (findDtaReferences (pre ++ fl :: (mid ++ st :: post))).countP (fun s => s = r) = 1) ∧
    List.Chain' (fun a b => refLe a b = true)
      (findDtaReferences (pre ++ fl :: (mid ++ st :: post))) := by
  have hscan : dtaScan false false [] (pre ++ fl :: (mid ++ st :: post)) =
      List.foldl addSet [] (post.filterMap extractRef) := by
    rw [dtaScan_skip_failed [] pre _ hpre]
    rw [show dtaScan false false [] (fl :: (mid ++ st :: post)) =
        dtaScan true false [] (mid ++ st :: post) from by simp [dtaScan, hfl]]
    rw [dtaScan_skip_start [] mid _ hmid]
    rw [show dtaScan true false [] (st :: post) = dtaScan true true [] post from by
      simp [dtaScan, hst]]
    exact dtaScan_collect post []
  unfold findDtaReferences
  rw [hscan]
  have hperm := sortRefs_perm (List.foldl addSet [] (post.filterMap extractRef))
  have hnod : (List.foldl addSet [] (post.filterMap extractRef)).Nodup :=
    nodup_foldl_addSet _ [] List.nodup_nil
  refine ⟨?_, ?_, ?_⟩
  · intro r
    rw [hperm.mem_iff, mem_foldl_addSet]
    simp
  · intro r hr
    exact countP_eq_one_of_nodup_mem _ r (hperm.nodup_iff.mpr hnod) hr
  · exact chain'_sortRefs _

/-- Witness for C7: a reference before the gates, one between them, and two
occurrences of the same reference after both gates. -/
theorem c7_gated_refs_witness :
    (∀ r, r ∈ findDtaReferences (["(file a.dta, line 5) early"] ++
        "xx APP FAILED yy" :: (["mid (file b.dta, line 1)"] ++
        "zz start stack trace" :: ["(file b.dta, line 2)", "(file a.dta, line 9)",
          "(file b.dta, line 2)"])) ↔
      r ∈ ["(file b.dta, line 2)", "(file a.dta, line 9)",
        "(file b.dta, line 2)"].filterMap extractRef) ∧
    (∀ r ∈ findDtaReferences (["(file a.dta, line 5) early"] ++
        "xx APP FAILED yy" :: (["mid (file b.dta, line 1)"] ++
        "zz start stack trace" :: ["(file b.dta, line 2)", "(file a.dta, line 9)",
          "(file b.dta, line 2)"])),
      (findDtaReferences (["(file a.dta, line 5) early"] ++
        "xx APP FAILED yy" :: (["mid (file b.dta, line 1)"] ++
        "zz start stack trace" :: ["(file b.dta, line 2)", "(file a.dta, line 9)",
          "(file b.dta, line 2)"]))).countP (fun s => s = r) = 1) ∧
    List.Chain' (fun a b => refLe a b = true)
      (findDtaReferences (["(file a.dta, line 5) early"] ++
        "xx APP FAILED yy" :: (["mid (file b.dta, line 1)"] ++
        "zz start stack trace" :: ["(file b.dta, line 2)", "(file a.dta, line 9)",
          "(file b.dta, line 2)"]))) :=
  c7_gated_refs ["(file a.dta, line 5) early"] "xx APP FAILED yy"
    ["mid (file b.dta, line 1)"] "zz start stack trace"
    ["(file b.dta, line 2)", "(file a.dta, line 9)", "(file b.dta, line 2)"]
    (by decide) (by decide) (by decide) (by decide)

/-! ### The message-header regex, on well-formed headers -/

theorem drop_len_append (l r : List Char) : (l ++ r).drop l.length = r :=
  List.drop_left l r

theorem reqDigits_run (run rest : List Char)
    (h : ∀ c ∈ run, isDecDigit c = true) (hne : run ≠ [])
    (hrest : match rest with | [] => True | c :: _ => isDecDigit c = false) :
    reqDigits (run ++ rest) = some rest := by
  unfold reqDigits
  rw [takeWhile_run _ run rest h hrest]
  rw [if_neg (by simpa [List.isEmpty_iff] using hne), drop_len_append]

theorem reqNonColon_run (run rest : List Char)
    (h : ∀ c ∈ run, (!(c = ':')) = true) (hne : run ≠ [])
    (hrest : match rest with | [] => True | c :: _ => (!(c = ':')) = false) :
    reqNonColon (run ++ rest) = some rest := by
  unfold reqNonColon
  rw [takeWhile_run _ run rest h hrest]
  rw [if_neg (by simpa [List.isEmpty_iff] using hne), drop_len_append]

theorem reqChar_cons (ch : Char) (rest : List Char) :
    reqChar ch (ch :: rest) = some rest := by
  simp [reqChar]

theorem isPrefixOf_append (l r : List Char) : l.isPrefixOf (l ++ r) = true := by
  induction l with
  | nil => simp [List.isPrefixOf]
  | cons c t ih => simp [List.cons_append, List.isPrefixOf, ih]

theorem reqLit_append (lit rest : List Char) : reqLit lit (lit ++ rest) = some rest := by
  unfold reqLit
  rw [if_pos (isPrefixOf_append lit rest), drop_len_append]

/-- C8 counterexample: the tag is present in `"N[OSREPORT]: foo"` but no
timestamp/source header precedes it, so the parser's message body is the
whole line, not the text `"foo"` following the tag — refuting "regardless of
what precedes the tag". -/
theorem c8_counterexample :
    strContains "N[OSREPORT]: foo" "N[OSREPORT]:" = true ∧
    stripMsg "N[OSREPORT]: foo" = "N[OSREPORT]: foo" ∧
    stripMsg "N[OSREPORT]: foo" ≠ "foo" := by
  refine ⟨by decide, by decide, by decide⟩

/-- C8 amended: the message body is the text following the `N[OSREPORT]: `
tag exactly when the line starts with a header of the shape
`digits:digits:digits SPACE colon-free-field:digits` before the tag (and is
the whole line otherwise, in particular whenever the tag is present without
such a header). -/
theorem c8_header_strip (a b c s d body : String)
    (ha1 : a.data ≠ []) (ha2 : ∀ ch ∈ a.data, isDecDigit ch = true)
    (hb1 : b.data ≠ []) (hb2 : ∀ ch ∈ b.data, isDecDigit ch = true)
    (hc1 : c.data ≠ []) (hc2 : ∀ ch ∈ c.data, isDecDigit ch = true)
    (hs1 : s.data ≠ []) (hs2 : ∀ ch ∈ s.data, (!(ch = ':')) = true)
    (hd1 : d.data ≠ []) (hd2 : ∀ ch ∈ d.data, isDecDigit ch = true)
    (hbody : ∀ ch ∈ body.data, (!(ch = '\n')) = true) :
    stripMsg (a ++ ":" ++ b ++ ":" ++ c ++ " " ++ s ++ ":" ++ d ++
      " N[OSREPORT]: " ++ body) = body := by
  have hcolon : isDecDigit ':' = false := by decide
  have hspace : isDecDigit ' ' = false := by decide
  have hcolonB : (!decide ((':' : Char) = ':')) = false := by decide
  have hdata : (a ++ ":" ++ b ++ ":" ++ c ++ " " ++ s ++ ":" ++ d ++
      " N[OSREPORT]: " ++ body).data =
      a.data ++ (':' :: (b.data ++ (':' :: (c.data ++ (' ' :: (s.data ++
        (':' :: (d.data ++ (" N[OSREPORT]: ".data ++ body.data))))))))) := by
    simp only [String.data_append, List.append_assoc]
    rfl
  unfold stripMsg
  rw [hdata]
  unfold parseHeader
  rw [reqDigits_run a.data _ ha2 ha1 hcolon, Option.some_bind,
    reqChar_cons, Option.some_bind,
    reqDigits_run b.data _ hb2 hb1 hcolon, Option.some_bind,
    reqChar_cons, Option.some_bind,
    reqDigits_run c.data _ hc2 hc1 hspace, Option.some_bind,
    reqChar_cons, Option.some_bind,
    reqNonColon_run s.data _ hs2 hs1 hcolonB, Option.some_bind,
    reqChar_cons, Option.some_bind,
    reqDigits_run d.data _ hd2 hd1 hspace, Option.some_bind,
    reqLit_append]
  have htake := takeWhile_run (fun ch => !(ch = '\n')) body.data [] hbody trivial
  rw [List.append_nil] at htake
  show String.mk (body.data.takeWhile (fun ch => !(ch = '\n'))) = body
  rw [htake]

/-- Witness for C8 at a fully-formed header line. -/
theorem c8_header_strip_witness :
    stripMsg ("12" ++ ":" ++ "34" ++ ":" ++ "56" ++ " " ++ "core0" ++ ":" ++ "7" ++
      " N[OSREPORT]: " ++ "hello world") = "hello world" :=
  c8_header_strip "12" "34" "56" "core0" "7" "hello world"
    (by decide) (by decide) (by decide) (by decide) (by decide) (by decide)
    (by decide) (by decide) (by decide) (by decide) (by decide)

/-! ### Step 5 of `main`: no fallback extraction exists -/

/-- C2 counterexample: the gated scan yields zero references while the
data-stack-trace block holds two `x.dta(12)` tokens in order, yet the
pipeline's final step prints the no-references message — it does not fall
back to extracting the ordered sequence `[(x.dta, 12), (x.dta, 12)]` from
the block (no reference is produced at all). -/
theorem c2_counterexample :
    findDtaReferences ["Data Stack Trace", "x.dta(12)", "x.dta(12)"] = [] ∧
    showDataStackTrace ["Data Stack Trace", "x.dta(12)", "x.dta(12)"] =
      ["x.dta(12)", "x.dta(12)"] ∧
    mainStep5 (fun _ => false) "." ["Data Stack Trace", "x.dta(12)", "x.dta(12)"] =
      MainRefsOutcome.noRefsMessage := by
  refine ⟨by decide, by decide, by decide⟩

/-- C2 amended: whenever the gated scan yields zero references, step 5 of the
pipeline prints the `No post-trace .dta references found` message and runs no
snippet tool — there is no secondary extraction from the data-stack-trace
block. -/
theorem c2_no_fallback (ex : String → Bool) (root : String) (lines : List String)
    (h : findDtaReferences lines = []) :
    mainStep5 ex root lines = MainRefsOutcome.noRefsMessage := by
  simp [mainStep5, h]

/-- Witness for C2's amended statement at the counterexample log. -/
theorem c2_no_fallback_witness :
    mainStep5 (fun _ => false) "." ["Data Stack Trace", "x.dta(12)", "x.dta(12)"] =
      MainRefsOutcome.noRefsMessage :=
  c2_no_fallback (fun _ => false) "." ["Data Stack Trace", "x.dta(12)", "x.dta(12)"]
    (by decide)

/-! ### `run_dta_debug`: references are never rewritten -/

/-- C1 counterexample: with references `dir/fo0.dta` (line 2) and
`dir/foo.dta` (line 1) — the sorted order the pipeline passes — and a
filesystem on which only `dir/foo.dta` exists, the run aborts at the first
missing file (the warning raises `NameError`: `sys` is never imported); no
event carries the rewritten reference `dir/foo.dta` at line 2 that the
claimed directory-majority correction would produce. -/
theorem c1_counterexample :
    runDtaDebug (fun p => p == "dir/foo.dta") "."
      [("dir/fo0.dta", 2), ("dir/foo.dta", 1)] = [Event.nameErrorAbort] ∧
    Event.snippet "dir/foo.dta" 2 ∉
      runDtaDebug (fun p => p == "dir/foo.dta") "."
        [("dir/fo0.dta", 2), ("dir/foo.dta", 1)] := by
  refine ⟨by decide, by decide⟩

/-- C1 amended: `run_dta_debug` performs no correction at all.  Existing
references are processed with their own (root-resolved) paths unchanged, in
order, and the first non-existing reference aborts the run with a
`NameError` (the warning line uses `sys.stderr` but `sys` is not imported);
a non-existing path is never rewritten to another file name. -/
theorem c1_no_correction (ex : String → Bool) (root : String)
    (refs : List (String × Nat)) :
    runDtaDebug ex root refs =
      ((refs.takeWhile (fun r => ex (resolveDtaPath root r.1))).map
        (fun r => Event.snippet (resolveDtaPath root r.1) r.2)) ++
      (if (refs.takeWhile (fun r => ex (resolveDtaPath root r.1))).length = refs.length
       then [] else [Event.nameErrorAbort]) := by
  induction refs with
  | nil => rfl
  | cons r rest ih =>
    obtain ⟨p, n⟩ := r
    cases hex : ex (resolveDtaPath root p) with
    | true =>
      simp only [runDtaDebug, hex, if_true, List.takeWhile_cons, List.map_cons,
        List.length_cons, List.cons_append, ih, Nat.add_right_cancel_iff]
    | false =>
      simp only [runDtaDebug, hex, Bool.false_eq_true, if_false, List.takeWhile_cons,
        List.map_nil, List.length_cons, List.nil_append, List.length_nil]
      rw [if_neg (by omega)]
